import Mathlib

/-!
Verification of the natural-language specification of the `qibo.ui.mpldrawer`
matplotlib circuit-drawing module against its source code.

The Python module is shallowly embedded: flattened gate tuples
`(name, target, control1, ...)` become a `GateTuple` (a name plus the list of
qubit-label fields after the name), Python dicts that are only written and
looked up become functions `ℕ → Option ℕ`, fallible code returns
`Except PyError`, and floating-point coordinates are modelled over `ℚ`
(the module only ever adds, subtracts and multiplies small grid values).
-/

/-- Errors raised by the embedded Python fragments: `TypeError` (e.g. iterating
a builtin type object), `NameError` (reference to an undefined name),
`ValueError` (e.g. `min([])` or a failed `int(...)` parse) and `IndexError`
(out-of-range sequence/array access). -/
inductive PyError where
  | typeError
  | nameError
  | valueError
  | indexError
deriving DecidableEq, Repr

/-- A flattened display tuple `(name, target, control1, control2, ...)`:
`name` is the gate name, `qubits` the list of qubit-label fields after the
name.  The Python tuple length is `1 + qubits.length`; the tuple is a
"single-qubit" tuple (Python `len(item) == 2`) when `qubits.length = 1`. -/
structure GateTuple where
  name : String
  qubits : List String
deriving DecidableEq, Repr

/-- Boolean prefix test on character lists (the Python `str.startswith` /
slice-comparison semantics). -/
def isPrefixOfB : List Char → List Char → Bool
  | [], _ => true
  | _ :: _, [] => false
  | a :: as, b :: bs => a == b && isPrefixOfB as bs

/-- Python `sub in s` substring test, on the underlying character lists. -/
def containsSubB (sub s : List Char) : Bool :=
  (List.range (s.length + 1)).any (fun k => isPrefixOfB sub (s.drop k))

/-- Python `sub in s` substring membership for strings. -/
def strContains (s sub : String) : Bool := containsSubB sub.data s.data

/-- Python `s.startswith p`. -/
def strStartsWith (s p : String) : Bool := isPrefixOfB p.data s.data

/-- Python `s[-2:] == p` for a two-character `p`, i.e. an ends-with test. -/
def strEndsWith (s p : String) : Bool := isPrefixOfB p.data.reverse s.data.reverse

/-- Python `s.replace(sub, rep)` on character lists: replaces every
non-overlapping occurrence left to right, with an explicit fuel argument
(structural recursion so the kernel can evaluate it; every step consumes at
least one character, so fuel `l.length` suffices).  The module only calls
`replace` with non-empty patterns, so the empty-pattern case never arises. -/
def replaceFuelB (sub rep : List Char) : ℕ → List Char → List Char
  | 0, l => l
  | _ + 1, [] => []
  | fuel + 1, c :: cs =>
    if sub ≠ [] ∧ isPrefixOfB sub (c :: cs) = true then
      rep ++ replaceFuelB sub rep fuel ((c :: cs).drop sub.length)
    else
      c :: replaceFuelB sub rep fuel cs

/-- Python `s.replace(sub, rep)` for strings. -/
def strReplace (s sub rep : String) : String :=
  ⟨replaceFuelB sub.data rep.data s.data.length s.data⟩

/-- Python `s.upper()` (the gate names in play are ASCII). -/
def strToUpper (s : String) : String := ⟨s.data.map Char.toUpper⟩

/-- Python `s[2:]`. -/
def strDrop2 (s : String) : String := ⟨s.data.drop 2⟩

/-- Python `int(s)` restricted to the digit strings the module actually
parses (the inner-gate count spliced into a barrier name). -/
def digitsToNat? (s : String) : Option ℕ :=
  if s.data ≠ [] ∧ s.data.all Char.isDigit then
    some (s.data.foldl (fun n c => 10 * n + (c.toNat - 48)) 0)
  else
    none

/-- State of the single left-to-right pass of `_make_cluster_gates`:
the already emitted clusters, the open single-qubit gate bucket
(`temp_gates`) and the open measurement bucket (`temp_mgates`). -/
structure ClusterState where
  clusters : List (List GateTuple)
  gbuf : List GateTuple
  mbuf : List GateTuple
deriving DecidableEq, Repr

/-- One iteration of the `for item in gates_items` loop of
`_make_cluster_gates` (mpldrawer.py lines 513-536).  A tuple with exactly one
qubit field (Python `len(item) == 2`) is routed on its name: `"MEASURE"`
goes to the measurement bucket; otherwise, if its qubit label already occurs
as the qubit (`tup[1]`) of a tuple in the open gate bucket, the bucket is
emitted and restarted with the tuple, else the tuple is appended.  Any other
tuple flushes the gate bucket, then the measurement bucket, then is emitted
as a singleton cluster. -/
def clusterStep (s : ClusterState) (item : GateTuple) : ClusterState :=
  match item.qubits with
  | [q] =>
    if item.name = "MEASURE" then
      { s with mbuf := s.mbuf ++ [item] }
    else
      if q ∈ s.gbuf.map (fun tup => tup.qubits.headD "") then
        { s with clusters := s.clusters ++ [s.gbuf], gbuf := [item] }
      else
        { s with gbuf := s.gbuf ++ [item] }
  | _ =>
    { clusters :=
        s.clusters ++ (if s.gbuf = [] then [] else [s.gbuf])
          ++ (if s.mbuf = [] then [] else [s.mbuf]) ++ [[item]],
      gbuf := [], mbuf := [] }

/-- The final flush of `_make_cluster_gates` (lines 538-542): any still-open
gate bucket, then any still-open measurement bucket, is emitted. -/
def clusterFlush (s : ClusterState) : List (List GateTuple) :=
  s.clusters ++ (if s.gbuf = [] then [] else [s.gbuf])
    ++ (if s.mbuf = [] then [] else [s.mbuf])

/-- `_make_cluster_gates` (mpldrawer.py lines 507-544). -/
def make_cluster_gates (gates_items : List GateTuple) : List (List GateTuple) :=
  clusterFlush (gates_items.foldl clusterStep ⟨[], [], []⟩)

/-- `_get_flipped_index` (mpldrawer.py lines 451-461): `len(labels) -
labels.index(target) - 1`.  Python raises `ValueError` when `target` is
absent; the embedding then computes `List.indexOf = labels.length`, hence
returns `0`, so every theorem that depends on the lookup carries a
`target ∈ labels` hypothesis restricting it to the non-raising domain. -/
def get_flipped_index (target : String) (labels : List String) : ℕ :=
  labels.length - labels.indexOf target - 1

/-- `_get_flipped_indices` (mpldrawer.py lines 486-487). -/
def get_flipped_indices (targets : List String) (labels : List String) : List ℕ :=
  targets.map (fun t => get_flipped_index t labels)

/-- Loop of `_measured_wires` (mpldrawer.py lines 153-161) over
`enumerate(l)`, carrying the running index `i` and the dict `measured`
(modelled as its lookup function, since the module only ever writes
`measured[j] = i` and reads `measured.get(...)`).  Each gate whose name
starts with `"M"` overwrites the entry for the flipped index of its target
(`gate[1]`, the first qubit field) with the current position. -/
def mwAux (labels : List String) : ℕ → (ℕ → Option ℕ) → List GateTuple → (ℕ → Option ℕ)
  | _, measured, [] => measured
  | i, measured, gate :: rest =>
    let j := get_flipped_index (gate.qubits.headD "") labels
    mwAux labels (i + 1)
      (if strStartsWith gate.name "M" then
        fun w => if w = j then some i else measured w
      else measured) rest

/-- `_measured_wires` (mpldrawer.py lines 153-161) for a flat gate list
(`schedule=False`), returned as the dict's lookup function. -/
def measured_wires (l : List GateTuple) (labels : List String) : ℕ → Option ℕ :=
  mwAux labels 0 (fun _ => none) l

/-- Label-inference loop of `_plot_quantum_circuit` (mpldrawer.py lines
92-97) and `_plot_quantum_schedule` (lines 51-56): every qubit field of
every gate tuple, in traversal order, is appended to the label list unless
already present. -/
def inferLabels (gs : List GateTuple) : List String :=
  ((gs.map GateTuple.qubits).flatten).foldl
    (fun acc lab => if lab ∈ acc then acc else acc ++ [lab]) []

/-- All qubit-label fields of a gate-tuple list, in traversal order
(the concatenation of the `gate[1:]` slices). -/
def allLabels (gs : List GateTuple) : List String :=
  (gs.map GateTuple.qubits).flatten

/-- `np.arange(0.0, n * scale, scale)` for a positive `scale` (mpldrawer.py
lines 101-102): the `n` grid coordinates `0, scale, ..., (n-1)*scale`. -/
def wireGrid (n : ℕ) (scale : ℚ) : List ℚ :=
  (List.range n).map (fun k : ℕ => (k : ℚ) * scale)

/-- `_check_list_str` (mpldrawer.py lines 553-554).  The body is
`any(item in str for item in list)`: it iterates the *builtin type*
`list` (not the `substrings` parameter), so creating the generator raises
`TypeError: 'type' object is not iterable` on every call, whatever the
arguments. -/
def check_list_str (substrings : List String) (string : String) : Except PyError Bool :=
  .error .typeError

/-- The contract the spec assigns to `_check_list_str` (spec §9): true iff
at least one element of `substrings` occurs as a substring of `string`. -/
def check_list_str_spec (substrings : List String) (string : String) : Bool :=
  substrings.any (fun item => strContains string item)

/-- Emission of an open bucket: an empty bucket is not open, a non-empty one
is emitted as a cluster. -/
def optCluster (b : List GateTuple) : List (List GateTuple) :=
  if b = [] then [] else [b]

/-- The clustering algorithm exactly as the spec states it (spec §4.2 /
claim C2), written as a direct recursion over the remaining input that
carries the open gate bucket and the open measurement bucket: a single-qubit
non-measurement tuple whose qubit label already occurs in the open gate
bucket closes that bucket and starts a new one containing the tuple,
otherwise it is appended; a single-qubit measurement tuple is appended to
the separate measurement bucket; every tuple with more than two fields
first emits the gate bucket, then the measurement bucket, then itself as a
singleton cluster; at end of input the still-open gate bucket and then the
still-open measurement bucket are emitted.  (Tuples with no qubit field are
outside the claim; the spec recursion skips them.) -/
def specCluster : List GateTuple → List GateTuple → List GateTuple → List (List GateTuple)
  | gbuf, mbuf, [] => optCluster gbuf ++ optCluster mbuf
  | gbuf, mbuf, item :: rest =>
    match item.qubits with
    | [] => specCluster gbuf mbuf rest
    | [q] =>
      if item.name = "MEASURE" then
        specCluster gbuf (mbuf ++ [item]) rest
      else if ∃ tup ∈ gbuf, q ∈ tup.qubits then
        gbuf :: specCluster [item] mbuf rest
      else
        specCluster (gbuf ++ [item]) mbuf rest
    | _ :: _ :: _ =>
      optCluster gbuf ++ optCluster mbuf ++ [[item]] ++ specCluster [] [] rest
termination_by _ _ l => l.length

/-- A tuple counts as a measurement for the clustering claims exactly when
its name is `"MEASURE"` (the predicate tested at mpldrawer.py line 515). -/
def isMeasB (t : GateTuple) : Bool := t.name == "MEASURE"

/-- Two tuples share no target/control qubit label. -/
def qubitsDisjointB (a b : GateTuple) : Bool :=
  a.qubits.all (fun q => !(b.qubits.contains q))

/-- No two tuples of the list share a target/control qubit label. -/
def pairwiseDisjointB : List GateTuple → Bool
  | [] => true
  | a :: r => r.all (fun b => qubitsDisjointB a b) && pairwiseDisjointB r

/-- All tuples of the list agree on whether they are measurements: the list
does not mix a measurement tuple with a non-measurement tuple. -/
def uniformMeasB (c : List GateTuple) : Bool :=
  c.all (fun a => c.all (fun b => isMeasB a == isMeasB b))

/-- Claim C3 exactly as stated: every cluster emitted by
`_make_cluster_gates` has pairwise disjoint qubit labels and does not mix
measurement with non-measurement tuples. -/
def claimC3 (l : List GateTuple) : Prop :=
  ∀ c ∈ make_cluster_gates l, pairwiseDisjointB c = true ∧ uniformMeasB c = true

/-- The conjunction that actually holds of every emitted cluster: it never
mixes measurement with non-measurement tuples, and when it consists of
non-measurement tuples its qubit labels are pairwise disjoint. -/
def GoodCluster (c : List GateTuple) : Prop :=
  uniformMeasB c = true ∧
    ((c.all fun t => !(isMeasB t)) = true → pairwiseDisjointB c = true)

/-- Invariant of the clustering pass: all emitted clusters are good, the
open gate bucket holds single-qubit non-measurement tuples with pairwise
distinct qubit labels, and the open measurement bucket holds only
measurement tuples. -/
def ClusterInv (s : ClusterState) : Prop :=
  (∀ c ∈ s.clusters, GoodCluster c) ∧
    (∀ t ∈ s.gbuf, isMeasB t = false ∧ t.qubits.length = 1) ∧
    (s.gbuf.map (fun t => t.qubits.headD "")).Nodup ∧
    (∀ t ∈ s.mbuf, isMeasB t = true)

/-- First-operand-biased choice on optional values (the lookup of a dict
overwritten left to right: a later write wins over an earlier state). -/
def optOr : Option ℕ → Option ℕ → Option ℕ
  | some x, _ => some x
  | none, b => b

/-- Whether position `i` of the tuple list holds a tuple whose name starts
with `"M"` and whose target (`gate[1]`) lies on wire `w` (its flipped
index). -/
def measCondAt (l : List GateTuple) (labels : List String) (w i : ℕ) : Bool :=
  match l[i]? with
  | some g =>
    strStartsWith g.name "M" && decide (get_flipped_index (g.qubits.headD "") labels = w)
  | none => false

/-- Spec-level description of what the `_measured_wires` dict holds for wire
`w` after scanning `l` with positions starting at offset `i`: the position
of the *last* `M`-prefixed tuple targeting `w`, if any. -/
def latestO (labels : List String) : ℕ → List GateTuple → ℕ → Option ℕ
  | _, [], _ => none
  | i, g :: rest, w =>
    optOr (latestO labels (i + 1) rest w)
      (if strStartsWith g.name "M" = true ∧ get_flipped_index (g.qubits.headD "") labels = w
        then some i else none)

/-- Claim C4 exactly as stated: each wire carrying at least one measurement
tuple is mapped by `_measured_wires` to the *earliest* column index at which
a measurement occurs on that wire. -/
def claimC4 (l : List GateTuple) (labels : List String) : Prop :=
  ∀ w, (∃ i, measCondAt l labels w i = true) →
    ∃ i, measCondAt l labels w i = true ∧
      (∀ i' < i, measCondAt l labels w i' = false) ∧
      measured_wires l labels w = some i

/-- First-occurrence deduplication, following the spec's words for label
inference: keep each label the first time it is seen, dropping all its later
occurrences. -/
def firstDedup : List String → List String
  | [] => []
  | a :: l => a :: firstDedup (l.filter (fun x => decide (x ≠ a)))
termination_by l => l.length
decreasing_by
  simp only [List.length_cons]
  exact Nat.lt_succ_of_le (List.length_filter_le _ _)

/-- The wire y-coordinate the drawing code assigns to a label: the entry of
`wire_grid` at the label's flipped index, as read by `_draw_labels` /
`_draw_target` (mpldrawer.py lines 99-101, 292-293, 422-427). -/
def wireCoordOf (labels : List String) (scale : ℚ) (label : String) : Option ℚ :=
  (wireGrid labels.length scale)[get_flipped_index label labels]?

/-- A gate object as `_process_gates` consumes it: its name, its target and
control qubit tuples (`gate._target_qubits` / `gate._control_qubits`), and
its display label (`gate.draw_label`). -/
structure QGate where
  name : String
  target_qubits : List ℕ
  control_qubits : List ℕ
  draw_label : String
deriving DecidableEq, Repr

/-- Decimal rendering of a qubit index, as Python `str(qbit)`. -/
def natToStr (n : ℕ) : String := ⟨Nat.toDigits 10 n⟩

/-- The module-level name `circuit` referenced at mpldrawer.py line 595
(`for qbit in list(range(circuit.nqubits))`): no global `circuit` is defined
in the module, so resolving the name raises `NameError`.  The absent binding
is modelled as `none`. -/
def moduleCircuitNQubits : Option ℕ := none

/-- The `ENTANGLEMENTENTROPY` fan-out branch of `_process_gates`
(mpldrawer.py lines 594-598): one tuple per qubit of the whole circuit, in
increasing qubit order — provided the enclosing-scope qubit count resolves. -/
def entanglement_entropy_fanout (nqubits? : Option ℕ) (init_label : String) :
    Except PyError (List GateTuple) :=
  match nqubits? with
  | none => .error .nameError
  | some n => .ok ((List.range n).map (fun k => ⟨init_label, ["q_" ++ natToStr k]⟩))

/-- The square-root-of-X display labels of `_process_gates` (lines 569-573). -/
def sqrtXLabel : String := "$\\rm\x7b\\sqrt\x7bX\x7d\x7d$"

/-- Dagger variant of the square-root-of-X display label. -/
def sqrtXDagLabel : String := "$\\rm\x7b\\sqrt\x7bX\x7d\x7d^\x7b\\dagger\x7d$"

/-- The gate names fanned out one tuple per target qubit (lines 582-589). -/
def broadcastNames : List String :=
  ["ID", "MEASURE", "KRAUSCHANNEL", "UNITARYCHANNEL", "DEPOLARIZINGCHANNEL",
    "READOUTERRORCHANNEL"]

/-- One iteration of the `for gate in array_gates` loop of `_process_gates`
(mpldrawer.py lines 560-615): name normalisation (`CCX`/`CX` aliases, the
square-root-of-X rewrite — whose `_check_list_str` call raises `TypeError`
on every execution — and the controlled-gate display label), then either
the per-target fan-out, the entanglement-entropy fan-out against the
enclosing-scope qubit count, or a single tuple of targets then controls.
(`"C" in init_label[0]` is first-character comparison; `qbit is tuple` is
always false for integer qubits, so the plain branch is taken.) -/
def process_gate_step (gate : QGate) : Except PyError (List GateTuple) := do
  let init_label := strToUpper gate.name
  let init_label := if init_label = "CCX" then "TOFFOLI" else init_label
  let init_label := if init_label = "CX" then "CNOT" else init_label
  let b ← check_list_str ["SX", "CSX"] init_label
  let init_label :=
    if b then
      if strEndsWith init_label "DG" then sqrtXDagLabel else sqrtXLabel
    else init_label
  let init_label :=
    if gate.control_qubits.length > 0 ∧ init_label.data.headD ' ' = 'C' ∧
        init_label ≠ "CNOT" then
      strToUpper gate.draw_label
    else init_label
  if init_label ∈ broadcastNames then
    pure (gate.target_qubits.map (fun q => ⟨init_label, ["q_" ++ natToStr q]⟩))
  else if init_label = "ENTANGLEMENTENTROPY" then
    entanglement_entropy_fanout moduleCircuitNQubits init_label
  else
    pure [⟨init_label,
      (gate.target_qubits ++ gate.control_qubits).map (fun q => "q_" ++ natToStr q)⟩]

/-- Accumulating loop of `_process_gates` (mpldrawer.py lines 557-617). -/
def process_gates_aux : List GateTuple → List QGate → Except PyError (List GateTuple)
  | acc, [] => .ok acc
  | acc, g :: rest => do
    let items ← process_gate_step g
    process_gates_aux (acc ++ items) rest

/-- `_process_gates` (mpldrawer.py lines 557-617). -/
def process_gates (array_gates : List QGate) : Except PyError (List GateTuple) :=
  process_gates_aux [] array_gates

/-- The numeric entries of the module-wide `plot_params` dict (mpldrawer.py
lines 18-33).  The colour entries are opaque configuration strings that
never influence the geometry any claim is about, so they are not modelled. -/
structure PlotParams where
  scale : ℚ
  fontsize : ℚ
  linewidth : ℚ
  control_radius : ℚ
  not_radius : ℚ
  swap_delta : ℚ
  label_buffer : ℚ
deriving DecidableEq, Repr

/-- The default numeric `plot_params` values (lines 18-33). -/
def defaultPlotParams : PlotParams :=
  { scale := 1, fontsize := 14, linewidth := 1, control_radius := 1 / 20,
    not_radius := 3 / 20, swap_delta := 2 / 25, label_buffer := 0 }

/-- A drawing primitive emitted to the matplotlib axes: the output artifact
of a render is the figure set-up plus the list of these primitives. -/
inductive DrawPrim where
  | lineP (x1 x2 y1 y2 : ℚ)
  | textP (x y : ℚ) (s : String) (fontsize : ℚ) (boxed : Bool)
  | circleP (x y r : ℚ)
  | rectP (x y w h : ℚ)
  | figureP (w h xmin xmax ymin ymax : ℚ)
deriving DecidableEq, Repr

/-- `_line` (mpldrawer.py lines 308-313). -/
def lineH (x1 x2 y1 y2 : ℚ) : List DrawPrim := [.lineP x1 x2 y1 y2]

/-- `_text` (mpldrawer.py lines 316-342): the fontsize is chosen by a
`_check_list_str` call, which raises `TypeError` on every execution. -/
def textH (pp : PlotParams) (x y : ℚ) (textstr : String) (boxed : Bool) :
    Except PyError (List DrawPrim) := do
  let b ← check_list_str ["dagger", "sqrt"] textstr
  let fontsize := if b then (12 : ℚ) else pp.fontsize
  pure [.textP x y textstr fontsize boxed]

/-- `_oplus` (mpldrawer.py lines 345-359). -/
def oplusH (pp : PlotParams) (x y : ℚ) : List DrawPrim :=
  [.circleP x y pp.not_radius] ++ lineH x x (y - pp.not_radius) (y + pp.not_radius)

/-- `_cdot` (mpldrawer.py lines 362-375). -/
def cdotH (pp : PlotParams) (x y : ℚ) : List DrawPrim :=
  [.circleP x y (pp.control_radius * pp.scale)]

/-- `_swapx` (mpldrawer.py lines 378-382). -/
def swapxH (pp : PlotParams) (x y : ℚ) : List DrawPrim :=
  lineH (x - pp.swap_delta) (x + pp.swap_delta) (y - pp.swap_delta) (y + pp.swap_delta) ++
    lineH (x - pp.swap_delta) (x + pp.swap_delta) (y + pp.swap_delta) (y - pp.swap_delta)

/-- `_rectangle` (mpldrawer.py lines 464-483). -/
def rectangleH (x1 x2 y1 y2 : ℚ) : List DrawPrim :=
  [.rectP (min x1 x2) (min y1 y2) |x2 - x1| |y2 - y1|]

/-- Indexing a numpy coordinate grid: out-of-range access raises
`IndexError`. -/
def gridGet (grid : List ℚ) (k : ℕ) : Except PyError ℚ :=
  match grid[k]? with
  | some v => .ok v
  | none => .error .indexError

/-- Python `grid[-1]`, the last grid entry. -/
def gridLast (grid : List ℚ) : Except PyError ℚ :=
  match grid.getLast? with
  | some v => .ok v
  | none => .error .indexError

/-- The two-qubit gate names drawn as a boxed symbol on each control wire
(mpldrawer.py lines 246-262). -/
def twoQubitBoxedNames : List String :=
  ["ISWAP", "SISWAP", "FSWAP", "FSIM", "SYC", "GENERALIZEDFSIM", "RXX", "RYY",
    "RZZ", "RZX", "RXXYY", "G", "RBS", "ECR", "MS"]

/-- The dagger superscript appended to a symbol (lines 267, 289). -/
def daggerSuffix : String := "$\\rm\x7b^\x7b\\dagger\x7d\x7d$"

/-- `_draw_target` (mpldrawer.py lines 275-305): barrier names draw nothing;
a trailing `DG` is stripped and renders a dagger superscript; the symbol
table may override the name; `CNOT`/`TOFFOLI` draw an oplus, `CPHASE` a
control dot, `SWAP` a cross, anything else boxed text (with the `ALIGN`
special case). -/
def draw_target (symbols : String → Option String) (i : ℕ) (gate : GateTuple)
    (labels : List String) (gate_grid wire_grid : List ℚ) (pp : PlotParams) :
    Except PyError (List DrawPrim) := do
  let name := gate.name
  let target := gate.qubits.headD ""
  if strContains name "FUSEDSTARTGATEBARRIER" || strContains name "FUSEDENDGATEBARRIER" then
    pure []
  else
    let is_dagger := strEndsWith name "DG"
    let name := if is_dagger then strReplace name "DG" "" else name
    let symbol := (symbols name).getD name
    let symbol := if is_dagger then symbol ++ daggerSuffix else symbol
    let x ← gridGet gate_grid i
    let target_index := get_flipped_index target labels
    let y ← gridGet wire_grid target_index
    if symbol = "" then
      pure []
    else if name = "CNOT" ∨ name = "TOFFOLI" then
      pure (oplusH pp x y)
    else if name = "CPHASE" then
      pure (cdotH pp x y)
    else if name = "SWAP" then
      pure (swapxH pp x y)
    else
      let symbol := if name = "ALIGN" then "A(" ++ strDrop2 target ++ ")" else symbol
      textH pp x y symbol true

/-- The per-control glyph loop of `_draw_controls` (mpldrawer.py lines
235-272), threading the `name` variable, which the loop body mutates when it
strips a trailing `DG`. -/
def drawControlGlyphsAux (symbols : String → Option String) (wire_grid : List ℚ)
    (pp : PlotParams) (x : ℚ) :
    List DrawPrim × String → List ℕ → Except PyError (List DrawPrim × String)
  | st, [] => .ok st
  | st, ci :: rest => do
    let y ← gridGet wire_grid ci
    let is_dagger := strEndsWith st.2 "DG"
    let name := if is_dagger then strReplace st.2 "DG" "" else st.2
    if name = "SWAP" then
      drawControlGlyphsAux symbols wire_grid pp x (st.1 ++ swapxH pp x y, name) rest
    else if name ∈ twoQubitBoxedNames then
      let symbol := (symbols name).getD name
      let symbol := if is_dagger then symbol ++ daggerSuffix else symbol
      let t ← textH pp x y symbol true
      drawControlGlyphsAux symbols wire_grid pp x (st.1 ++ t, name) rest
    else
      drawControlGlyphsAux symbols wire_grid pp x (st.1 ++ cdotH pp x y, name) rest

/-- `_draw_controls` (mpldrawer.py lines 175-272): nothing for an end
barrier; for a start barrier the dashed bounding rectangle with horizontal
margins `0.30` around the columns `i+1 .. i+nfused` and vertical margins
`0.25` around the spanned wires (the span raised by `0.9 * scale` when the
`@EQUAL` flag is set); otherwise the vertical connector line over the
control/target span, a second line `0.04` to the right when some control
wire was measured at an earlier column, and one glyph per control. -/
def draw_controls (symbols : String → Option String) (i : ℕ) (gate : GateTuple)
    (labels : List String) (gate_grid wire_grid : List ℚ) (pp : PlotParams)
    (measured : ℕ → Option ℕ) : Except PyError (List DrawPrim) := do
  let name := gate.name
  let target := gate.qubits.headD ""
  if strContains name "FUSEDENDGATEBARRIER" then
    pure []
  else
    let target_index := get_flipped_index target labels
    let controls := gate.qubits.tail
    let control_indices := get_flipped_indices controls labels
    let min_wire := control_indices.foldl min target_index
    let max_wire := control_indices.foldl max target_index
    if strContains name "FUSEDSTARTGATEBARRIER" then
      let equal_qbits := strContains name "@EQUAL"
      let name := if equal_qbits then strReplace name "@EQUAL" "" else name
      let nfused ← match digitsToNat? (strReplace name "FUSEDSTARTGATEBARRIER" "") with
        | some k => pure k
        | none => .error .valueError
      let gx1 ← gridGet gate_grid (i + 1)
      let gx2 ← gridGet gate_grid (i + nfused)
      let wy1 ← gridGet wire_grid min_wire
      let wy2 ← gridGet wire_grid max_wire
      pure (rectangleH (gx1 - 3 / 10) (gx2 + 3 / 10)
        (wy1 - 1 / 4 - (if equal_qbits then -(9 / 10) * pp.scale else 0))
        (wy2 + 1 / 4))
    else
      let x ← gridGet gate_grid i
      let ymin ← gridGet wire_grid min_wire
      let ymax ← gridGet wire_grid max_wire
      let base := lineH x x ymin ymax
      let ismeasured := control_indices.any (fun idx => ((measured idx).getD 1000) < i)
      let base := base ++ (if ismeasured then lineH (x + 1 / 25) (x + 1 / 25) ymin ymax else [])
      let res ← drawControlGlyphsAux symbols wire_grid pp x ([], name) control_indices
      pure (base ++ res.1)

/-- `_setup_figure` (mpldrawer.py lines 385-398): canvas size
`(ng*scale, nq*scale)` and axis limits padded by half a scale unit beyond
the first and last grid entries. -/
def setup_figure (nq ng : ℕ) (gate_grid wire_grid : List ℚ) (pp : PlotParams) :
    Except PyError DrawPrim := do
  let g0 ← gridGet gate_grid 0
  let gl ← gridLast gate_grid
  let w0 ← gridGet wire_grid 0
  let wl ← gridLast wire_grid
  pure (.figureP ((ng : ℚ) * pp.scale) ((nq : ℚ) * pp.scale)
    (g0 - pp.scale / 2) (gl + pp.scale / 2) (w0 - pp.scale / 2) (wl + pp.scale / 2))

/-- Per-wire loop of `_draw_wires` (mpldrawer.py lines 405-413). -/
def drawWiresAux (wire_grid : List ℚ) (x1 x2 : ℚ) :
    List DrawPrim → List ℕ → Except PyError (List DrawPrim)
  | acc, [] => .ok acc
  | acc, ii :: rest => do
    let y ← gridGet wire_grid ii
    drawWiresAux wire_grid x1 x2 (acc ++ lineH x1 x2 y y) rest

/-- `_draw_wires` (mpldrawer.py lines 401-413): one horizontal line per
wire, extending one scale unit beyond the first and last columns (the
`xdata` pair at line 404 indexes the gate grid before the loop). -/
def draw_wires (nq : ℕ) (gate_grid wire_grid : List ℚ) (pp : PlotParams) :
    Except PyError (List DrawPrim) := do
  let g0 ← gridGet gate_grid 0
  let gl ← gridLast gate_grid
  drawWiresAux wire_grid (g0 - pp.scale) (gl + pp.scale) [] (List.range nq)

/-- `_render_label` (mpldrawer.py lines 490-504).  In every call made by
`plot`, `inits` is `list(range(nqubits))`, a list of integers, so the
string label is never a member and the ket of the label itself is
returned. -/
def render_label (label : String) (inits : List ℕ) : String :=
  "$|" ++ label ++ "\\rangle$"

/-- Per-label loop of `_draw_labels` (mpldrawer.py lines 422-430). -/
def drawLabelsAux (all_labels : List String) (inits : List ℕ) (wire_grid : List ℚ)
    (pp : PlotParams) (x : ℚ) :
    List DrawPrim → List String → Except PyError (List DrawPrim)
  | acc, [] => .ok acc
  | acc, lab :: rest => do
    let y ← gridGet wire_grid (get_flipped_index lab all_labels)
    let t ← textH pp x y (render_label lab inits) false
    drawLabelsAux all_labels inits wire_grid pp x (acc ++ t) rest

/-- `_draw_labels` (mpldrawer.py lines 416-430): one text per label at the
wire of its flipped index, placed `label_buffer` to the left of
`gate_grid[0] - scale` (the `xdata` pair at line 421 indexes the gate grid
before the loop). -/
def draw_labels (labels : List String) (inits : List ℕ)
    (gate_grid wire_grid : List ℚ) (pp : PlotParams) :
    Except PyError (List DrawPrim) := do
  let g0 ← gridGet gate_grid 0
  let _gl ← gridLast gate_grid
  drawLabelsAux labels inits wire_grid pp (g0 - pp.scale - pp.label_buffer) [] labels

/-- Per-gate loop of `_draw_gates` (mpldrawer.py lines 164-172) for a flat
gate list: the target glyph, then — when the tuple has more than two
fields — the control glyphs. -/
def drawGatesAux (symbols : String → Option String) (labels : List String)
    (gate_grid wire_grid : List ℚ) (pp : PlotParams) (measured : ℕ → Option ℕ) :
    ℕ → List GateTuple → Except PyError (List DrawPrim)
  | _, [] => .ok []
  | i, g :: rest => do
    let t ← draw_target symbols i g labels gate_grid wire_grid pp
    let c ←
      if g.qubits.length + 1 > 2 then
        draw_controls symbols i g labels gate_grid wire_grid pp measured
      else
        pure []
    let restPrims ← drawGatesAux symbols labels gate_grid wire_grid pp measured (i + 1) rest
    pure (t ++ c ++ restPrims)

/-- Inner loop of `_draw_gates` over the gates of one schedule column, all
sharing the column index `i` (the `schedule=True` branch of
`_enumerate_gates`, lines 144-147). -/
def drawColumnAux (symbols : String → Option String) (labels : List String)
    (gate_grid wire_grid : List ℚ) (pp : PlotParams) (measured : ℕ → Option ℕ)
    (i : ℕ) : List DrawPrim → List GateTuple → Except PyError (List DrawPrim)
  | acc, [] => .ok acc
  | acc, g :: rest => do
    let t ← draw_target symbols i g labels gate_grid wire_grid pp
    let c ←
      if g.qubits.length + 1 > 2 then
        draw_controls symbols i g labels gate_grid wire_grid pp measured
      else
        pure []
    drawColumnAux symbols labels gate_grid wire_grid pp measured i (acc ++ t ++ c) rest

/-- `_draw_gates` (lines 164-172) for a schedule of columns. -/
def drawGatesSchedAux (symbols : String → Option String) (labels : List String)
    (gate_grid wire_grid : List ℚ) (pp : PlotParams) (measured : ℕ → Option ℕ) :
    ℕ → List (List GateTuple) → Except PyError (List DrawPrim)
  | _, [] => .ok []
  | i, col :: rest => do
    let colPrims ← drawColumnAux symbols labels gate_grid wire_grid pp measured i [] col
    let restPrims ← drawGatesSchedAux symbols labels gate_grid wire_grid pp measured (i + 1) rest
    pure (colPrims ++ restPrims)

/-- `_measured_wires` (lines 153-161) for a schedule: every gate of a column
is recorded at the column's index. -/
def mwSchedAux (labels : List String) :
    ℕ → (ℕ → Option ℕ) → List (List GateTuple) → (ℕ → Option ℕ)
  | _, measured, [] => measured
  | i, measured, col :: rest =>
    mwSchedAux labels (i + 1)
      (col.foldl (fun m gate =>
        let j := get_flipped_index (gate.qubits.headD "") labels
        if strStartsWith gate.name "M" then
          fun w => if w = j then some i else m w
        else m) measured) rest

/-- `_measured_wires` with `schedule=True`. -/
def measured_wires_sched (schedule : List (List GateTuple)) (labels : List String) :
    ℕ → Option ℕ :=
  mwSchedAux labels 0 (fun _ => none) schedule

/-- `_plot_quantum_circuit` (mpldrawer.py lines 77-113), with the symbol
registry as a parameter and `plot_labels=True` as `plot` always leaves it. -/
def plot_quantum_circuit (symbols : String → Option String) (gs : List GateTuple)
    (inits : List ℕ) (labels0 : List String) (pp : PlotParams) :
    Except PyError (List DrawPrim) := do
  let labels := if labels0.isEmpty then inferLabels gs else labels0
  let nq := labels.length
  let ng := gs.length
  let wire_grid := wireGrid nq pp.scale
  let gate_grid := wireGrid ng pp.scale
  let fig ← setup_figure nq ng gate_grid wire_grid pp
  let measured := measured_wires gs labels
  let wires ← draw_wires nq gate_grid wire_grid pp
  let lbls ← draw_labels labels inits gate_grid wire_grid pp
  let gprims ← drawGatesAux symbols labels gate_grid wire_grid pp measured 0 gs
  pure ([fig] ++ wires ++ lbls ++ gprims)

/-- `_plot_quantum_schedule` (mpldrawer.py lines 36-74). -/
def plot_quantum_schedule (symbols : String → Option String)
    (schedule : List (List GateTuple)) (inits : List ℕ) (labels0 : List String)
    (pp : PlotParams) : Except PyError (List DrawPrim) := do
  let labels := if labels0.isEmpty then inferLabels schedule.flatten else labels0
  let nq := labels.length
  let nt := schedule.length
  let wire_grid := wireGrid nq pp.scale
  let gate_grid := wireGrid nt pp.scale
  let fig ← setup_figure nq nt gate_grid wire_grid pp
  let measured := measured_wires_sched schedule labels
  let wires ← draw_wires nq gate_grid wire_grid pp
  let lbls ← draw_labels labels inits gate_grid wire_grid pp
  let gprims ← drawGatesSchedAux symbols labels gate_grid wire_grid pp measured 0 schedule
  pure ([fig] ++ wires ++ lbls ++ gprims)

/-- `_plot_lines_circuit` (mpldrawer.py lines 116-139). -/
def plot_lines_circuit (inits : List ℕ) (labels : List String) (pp : PlotParams) :
    Except PyError (List DrawPrim) := do
  let nq := labels.length
  let wire_grid := wireGrid nq pp.scale
  let gate_grid := wireGrid nq pp.scale
  let fig ← setup_figure nq nq gate_grid wire_grid pp
  let wires ← draw_wires nq gate_grid wire_grid pp
  let lbls ← draw_labels labels inits gate_grid wire_grid pp
  pure ([fig] ++ wires ++ lbls)

/-- An entry of a circuit's instruction queue: either a plain gate object or
a fused group carrying its inner gate objects (`qibo.gates.FusedGate`). -/
inductive QueueItem where
  | plain (g : QGate)
  | fused (inner : List QGate)
deriving DecidableEq, Repr

/-- The slice of a Qibo circuit that `plot` consumes: its qubit count and
its ordered instruction queue. -/
structure QCircuit where
  nqubits : ℕ
  queue : List QueueItem
deriving DecidableEq, Repr

/-- `_get_min_max_qbits` (mpldrawer.py lines 433-448): minimum and maximum
over all control then target qubits of a fused group's gates; Python's
`min([])` / `max([])` raise `ValueError` when the group references no
qubit. -/
def get_min_max_qbits (inner : List QGate) : Except PyError (ℕ × ℕ) :=
  match (inner.map QGate.control_qubits).flatten ++ (inner.map QGate.target_qubits).flatten with
  | [] => .error .valueError
  | x :: xs => .ok (xs.foldl min x, xs.foldl max x)

/-- Modelled from the spec: `FusedStartGateBarrier` lives in the
`FusedGateBarrier` module, which is not among the visible sources.  Per
spec §4.1 it is the synthetic start-barrier gate carrying (min qubit, max
qubit, inner column count, equal-qubit flag); the count and flag are
string-encoded in its name in exactly the format `_draw_controls` parses
back (`int(name.replace("FUSEDSTARTGATEBARRIER", ""))` after stripping
`"@EQUAL"`), and its target/control span the qubit range. -/
def FusedStartGateBarrier (min_q max_q l_gates : ℕ) (equal_qbits : Bool) : QGate :=
  { name := "FUSEDSTARTGATEBARRIER" ++ natToStr l_gates ++
      (if equal_qbits then "@EQUAL" else ""),
    target_qubits := [min_q], control_qubits := [max_q], draw_label := "" }

/-- Modelled from the spec: the matching synthetic end-barrier gate from the
`FusedGateBarrier` module (not among the visible sources), named so that
`_draw_target` / `_draw_controls` skip it. -/
def FusedEndGateBarrier (min_q max_q : ℕ) : QGate :=
  { name := "FUSEDENDGATEBARRIER", target_qubits := [min_q],
    control_qubits := [max_q], draw_label := "" }

/-- The queue-expansion loop of `plot` (mpldrawer.py lines 659-685): plain
gates pass through; a fused group contributes a start barrier (whose column
count is the clustered/flat tuple count when the group spans several
qubits, else the raw inner-gate count with the `@EQUAL` flag and a widened
span), its inner gates, and an end barrier. -/
def expand_queue (cluster_gates : Bool) : List QueueItem → Except PyError (List QGate)
  | [] => .ok []
  | .plain g :: rest => do
    let tail ← expand_queue cluster_gates rest
    pure (g :: tail)
  | .fused inner :: rest => do
    let mm ← get_min_max_qbits inner
    let pg ← process_gates inner
    let fgatesLen := if cluster_gates then (make_cluster_gates pg).length else pg.length
    let min_q := mm.1
    let res :=
      if mm.1 ≠ mm.2 then (mm.2, fgatesLen, false)
      else (mm.2 + 1, inner.length, true)
    let tail ← expand_queue cluster_gates rest
    pure ([FusedStartGateBarrier min_q res.1 res.2.1 res.2.2] ++ inner ++
      [FusedEndGateBarrier min_q res.1] ++ tail)

/-- `plot` (mpldrawer.py lines 620-698): the top-level render entry point.
The symbol table and the style's numeric parameters come from external
configuration files and are taken as arguments; `plot_params` is updated
with the requested scale before rendering.  A non-empty queue is expanded
(fused groups bracketed by barriers), flattened by `_process_gates`, and
drawn clustered (`_plot_quantum_schedule`) or flat (`_plot_quantum_circuit`);
an empty queue renders bare wires and labels. -/
def plot (symbols : String → Option String) (stylePP : PlotParams)
    (circuit : QCircuit) (scale : ℚ) (cluster_gates : Bool) :
    Except PyError (List DrawPrim) := do
  let pp := { stylePP with scale := scale }
  let inits := List.range circuit.nqubits
  let labels := (List.range circuit.nqubits).map (fun i => "q_" ++ natToStr i)
  if circuit.queue.length > 0 then
    let all_gates ← expand_queue cluster_gates circuit.queue
    let gates_plot ← process_gates all_gates
    if cluster_gates then
      plot_quantum_schedule symbols (make_cluster_gates gates_plot) inits labels pp
    else
      plot_quantum_circuit symbols gates_plot inits labels pp
  else
    plot_lines_circuit inits labels pp

/-- The computation raised some Python exception. -/
def isErr {α : Type} (e : Except PyError α) : Prop := ∃ err, e = .error err

/-- The plot parameters in force under `plot`'s default `scale=0.6`. -/
def pp35 : PlotParams := { defaultPlotParams with scale := 3 / 5 }

/-- Whether the column with index `k` (drawn at x-coordinate `k * s`) lies
within the horizontal span of a rectangle primitive. -/
def rectCoversColumn (r : DrawPrim) (s : ℚ) (k : ℕ) : Prop :=
  match r with
  | .rectP x _ w _ => x ≤ (k : ℚ) * s ∧ (k : ℚ) * s ≤ x + w
  | _ => False

example :
    make_cluster_gates
      [⟨"H", ["q_0"]⟩, ⟨"X", ["q_1"]⟩, ⟨"H", ["q_0"]⟩] =
    [[⟨"H", ["q_0"]⟩, ⟨"X", ["q_1"]⟩], [⟨"H", ["q_0"]⟩]] := by decide

example :
    make_cluster_gates
      [⟨"H", ["q_0"]⟩, ⟨"MEASURE", ["q_1"]⟩, ⟨"CNOT", ["q_0", "q_1"]⟩] =
    [[⟨"H", ["q_0"]⟩], [⟨"MEASURE", ["q_1"]⟩], [⟨"CNOT", ["q_0", "q_1"]⟩]] := by
  decide

/-- In a gate bucket of single-qubit tuples, the source's membership test
`item[1] in [tup[1] for tup in temp_gates]` coincides with the spec's
"the qubit label already occurs in the open gate bucket". -/
lemma gbuf_membership_eq (gbuf : List GateTuple) (q : String)
    (hg : ∀ t ∈ gbuf, t.qubits.length = 1) :
    (q ∈ gbuf.map (fun tup => tup.qubits.headD "")) ↔ (∃ tup ∈ gbuf, q ∈ tup.qubits) := by
  have hsing : ∀ t ∈ gbuf, t.qubits = [t.qubits.headD ""] := by
    intro t ht
    have h1 := hg t ht
    rcases hq : t.qubits with _ | ⟨a, r⟩
    · rw [hq] at h1
      simp at h1
    · rw [hq] at h1
      simp at h1
      subst h1
      simp [hq]
  constructor
  · intro h
    rcases List.mem_map.mp h with ⟨tup, htup, hq⟩
    exact ⟨tup, htup, by rw [hsing tup htup, hq]; simp⟩
  · rintro ⟨tup, htup, hq⟩
    rw [hsing tup htup, List.mem_singleton] at hq
    exact List.mem_map.mpr ⟨tup, htup, hq.symm⟩

/-- Running the source's fold from any state whose gate bucket holds only
single-qubit tuples, then flushing, produces that state's already emitted
clusters followed by the spec recursion on the remaining input. -/
lemma clusterRun_eq_spec :
    ∀ (l : List GateTuple) (s : ClusterState),
      (∀ t ∈ l, t.qubits ≠ []) →
      (∀ t ∈ s.gbuf, t.qubits.length = 1) →
      clusterFlush (l.foldl clusterStep s) = s.clusters ++ specCluster s.gbuf s.mbuf l := by
  intro l
  induction l with
  | nil =>
    intro s _ _
    simp [clusterFlush, specCluster, optCluster, List.append_assoc]
  | cons item rest ih =>
    intro s hl hg
    have hitem : item.qubits ≠ [] := hl item (by simp)
    have hrest : ∀ t ∈ rest, t.qubits ≠ [] := fun t ht => hl t (by simp [ht])
    rcases hqs : item.qubits with _ | ⟨q, qs⟩
    · exact absurd hqs hitem
    rcases qs with _ | ⟨q2, qs'⟩
    · -- single-qubit tuple
      by_cases hm : item.name = "MEASURE"
      · have hstep : clusterStep s item = { s with mbuf := s.mbuf ++ [item] } := by
          simp [clusterStep, hqs, hm]
        rw [List.foldl_cons, hstep, ih _ hrest (by simpa using hg)]
        conv_rhs => rw [specCluster]
        simp [hqs, hm]
      · by_cases hmem : q ∈ s.gbuf.map (fun tup => tup.qubits.headD "")
        · have hmem' : ∃ x ∈ s.gbuf, x.qubits.head?.getD "" = q := by simpa using hmem
          have hstep : clusterStep s item =
              { s with clusters := s.clusters ++ [s.gbuf], gbuf := [item] } := by
            simp [clusterStep, hqs, hm, hmem']
          rw [List.foldl_cons, hstep,
            ih _ hrest (by intro t ht; simp at ht; simp [ht, hqs])]
          conv_rhs => rw [specCluster]
          rw [hqs]
          simp only [hm, if_false]
          rw [if_pos ((gbuf_membership_eq s.gbuf q hg).mp hmem)]
          simp [List.append_assoc]
        · have hmem' : ¬∃ x ∈ s.gbuf, x.qubits.head?.getD "" = q := by
            rintro ⟨x, hx, hxq⟩
            exact hmem (by simpa using List.mem_map.mpr ⟨x, hx, hxq⟩)
          have hstep : clusterStep s item = { s with gbuf := s.gbuf ++ [item] } := by
            simp [clusterStep, hqs, hm, hmem']
          rw [List.foldl_cons, hstep,
            ih _ hrest (by
              intro t ht
              simp at ht
              rcases ht with ht | ht
              · exact hg t ht
              · simp [ht, hqs])]
          conv_rhs => rw [specCluster]
          rw [hqs]
          simp only [hm, if_false]
          rw [if_neg (fun hc => hmem ((gbuf_membership_eq s.gbuf q hg).mpr hc))]
    · -- tuple with more than two fields
      have hstep : clusterStep s item =
          { clusters := s.clusters ++ (if s.gbuf = [] then [] else [s.gbuf])
              ++ (if s.mbuf = [] then [] else [s.mbuf]) ++ [[item]],
            gbuf := [], mbuf := [] } := by
        simp [clusterStep, hqs]
      rw [List.foldl_cons, hstep, ih _ hrest (by simp)]
      conv_rhs => rw [specCluster]
      simp [hqs, optCluster, List.append_assoc]

/-- Claim C2: on any flattened tuple sequence (every tuple having at least a
name and one qubit field), `_make_cluster_gates` computes exactly the
single left-to-right two-bucket pass described by the spec. -/
theorem make_cluster_gates_follows_spec (l : List GateTuple)
    (h : ∀ t ∈ l, t.qubits ≠ []) :
    make_cluster_gates l = specCluster [] [] l := by
  have := clusterRun_eq_spec l ⟨[], [], []⟩ h (by simp)
  simpa [make_cluster_gates] using this

/-- Witness for C2 at the concrete input
`[("H","q_0"), ("MEASURE","q_0"), ("H","q_0"), ("CNOT","q_0","q_1")]`. -/
theorem make_cluster_gates_follows_spec_witness :
    make_cluster_gates
        [⟨"H", ["q_0"]⟩, ⟨"MEASURE", ["q_0"]⟩, ⟨"H", ["q_0"]⟩, ⟨"CNOT", ["q_0", "q_1"]⟩] =
      specCluster [] []
        [⟨"H", ["q_0"]⟩, ⟨"MEASURE", ["q_0"]⟩, ⟨"H", ["q_0"]⟩, ⟨"CNOT", ["q_0", "q_1"]⟩] :=
  make_cluster_gates_follows_spec _ (by decide)

/-- Counterexample to claim C3 as stated: two `MEASURE` tuples on the same
qubit are both appended to the open measurement bucket (no qubit-collision
check is made there), so the flushed measurement cluster contains two
tuples sharing the label `q_0`. -/
theorem claimC3_counterexample :
    ¬ claimC3 [⟨"MEASURE", ["q_0"]⟩, ⟨"MEASURE", ["q_0"]⟩] := by
  intro h
  have := h [⟨"MEASURE", ["q_0"]⟩, ⟨"MEASURE", ["q_0"]⟩] (by decide)
  exact absurd this.1 (by decide)

lemma goodCluster_of_meas (c : List GateTuple) (h : ∀ t ∈ c, isMeasB t = true) :
    GoodCluster c := by
  constructor
  · simp only [uniformMeasB, List.all_eq_true]
    intro a ha b hb
    simp [h a ha, h b hb]
  · intro hall
    cases hc : c with
    | nil => rfl
    | cons t r =>
      exfalso
      rw [hc] at hall h
      simp at hall
      have := h t (by simp)
      rw [this] at hall
      simp at hall

lemma goodCluster_singleton (t : GateTuple) : GoodCluster [t] := by
  constructor
  · simp [uniformMeasB]
  · intro _
    simp [pairwiseDisjointB]

lemma qubits_singleton_eq (t : GateTuple) (h : t.qubits.length = 1) :
    t.qubits = [t.qubits.headD ""] := by
  rcases hq : t.qubits with _ | ⟨a, r⟩
  · rw [hq] at h
    simp at h
  · rw [hq] at h
    simp at h
    subst h
    simp [hq]

lemma pairwiseDisjoint_of_singletons :
    ∀ (c : List GateTuple),
      (∀ t ∈ c, t.qubits.length = 1) →
      (c.map (fun t => t.qubits.headD "")).Nodup →
      pairwiseDisjointB c = true := by
  intro c
  induction c with
  | nil =>
    intro _ _
    rfl
  | cons a r ih =>
    intro h1 h2
    have h2' : a.qubits.headD "" ∉ r.map (fun t => t.qubits.headD "") ∧
        (r.map (fun t => t.qubits.headD "")).Nodup := by
      rw [List.map_cons, List.nodup_cons] at h2
      exact h2
    simp only [pairwiseDisjointB, Bool.and_eq_true, List.all_eq_true]
    refine ⟨?_, ih (fun t ht => h1 t (by simp [ht])) h2'.2⟩
    intro b hb
    have ha1 : a.qubits = [a.qubits.headD ""] := qubits_singleton_eq a (h1 a (by simp))
    have hb1 : b.qubits = [b.qubits.headD ""] := qubits_singleton_eq b (h1 b (by simp [hb]))
    have hne : a.qubits.headD "" ≠ b.qubits.headD "" := by
      intro heq
      exact h2'.1 (heq ▸ List.mem_map.mpr ⟨b, hb, rfl⟩)
    have hne' : ¬a.qubits.head?.getD "" = b.qubits.head?.getD "" := by
      simpa [List.headD_eq_head?] using hne
    rw [qubitsDisjointB, ha1, hb1]
    simp [hne']

lemma goodCluster_of_gbuf (c : List GateTuple)
    (h1 : ∀ t ∈ c, isMeasB t = false ∧ t.qubits.length = 1)
    (h2 : (c.map (fun t => t.qubits.headD "")).Nodup) :
    GoodCluster c := by
  constructor
  · simp only [uniformMeasB, List.all_eq_true]
    intro a ha b hb
    simp [(h1 a ha).1, (h1 b hb).1]
  · intro _
    exact pairwiseDisjoint_of_singletons c (fun t ht => (h1 t ht).2) h2

lemma goodCluster_flush_mem (s : ClusterState) (h : ClusterInv s) :
    ∀ c ∈ clusterFlush s, GoodCluster c := by
  obtain ⟨hcl, hgb, hnd, hmb⟩ := h
  intro c hc
  rw [clusterFlush] at hc
  simp only [List.mem_append] at hc
  rcases hc with (hc | hc) | hc
  · exact hcl c hc
  · by_cases hg0 : s.gbuf = []
    · rw [if_pos hg0] at hc
      simp at hc
    · rw [if_neg hg0, List.mem_singleton] at hc
      subst hc
      exact goodCluster_of_gbuf _ hgb hnd
  · by_cases hm0 : s.mbuf = []
    · rw [if_pos hm0] at hc
      simp at hc
    · rw [if_neg hm0, List.mem_singleton] at hc
      subst hc
      exact goodCluster_of_meas _ hmb

lemma clusterStep_catchall_inv (s : ClusterState) (item : GateTuple)
    (h : ClusterInv s)
    (hstep : clusterStep s item =
      { clusters := clusterFlush s ++ [[item]], gbuf := [], mbuf := [] }) :
    ClusterInv (clusterStep s item) := by
  rw [hstep]
  refine ⟨?_, by simp, by simp, by simp⟩
  intro c hc
  rcases List.mem_append.mp hc with hc | hc
  · exact goodCluster_flush_mem s h c hc
  · rw [List.mem_singleton] at hc
    subst hc
    exact goodCluster_singleton item

lemma clusterStep_inv (s : ClusterState) (item : GateTuple) (h : ClusterInv s) :
    ClusterInv (clusterStep s item) := by
  obtain ⟨hcl, hgb, hnd, hmb⟩ := h
  rcases hqs : item.qubits with _ | ⟨q, qs⟩
  · exact clusterStep_catchall_inv s item ⟨hcl, hgb, hnd, hmb⟩
      (by simp [clusterStep, hqs, clusterFlush, List.append_assoc])
  rcases qs with _ | ⟨q2, qs'⟩
  · -- single-qubit tuple
    by_cases hm : item.name = "MEASURE"
    · have hstep : clusterStep s item = { s with mbuf := s.mbuf ++ [item] } := by
        simp [clusterStep, hqs, hm]
      rw [hstep]
      refine ⟨hcl, hgb, hnd, ?_⟩
      intro t ht
      simp only [List.mem_append, List.mem_singleton] at ht
      rcases ht with ht | ht
      · exact hmb t ht
      · subst ht
        simp [isMeasB, hm]
    · by_cases hmem : q ∈ s.gbuf.map (fun tup => tup.qubits.headD "")
      · have hmem' : ∃ x ∈ s.gbuf, x.qubits.head?.getD "" = q := by simpa using hmem
        have hstep : clusterStep s item =
            { s with clusters := s.clusters ++ [s.gbuf], gbuf := [item] } := by
          simp [clusterStep, hqs, hm, hmem']
        rw [hstep]
        refine ⟨?_, ?_, by simp, hmb⟩
        · intro c hc
          simp only [List.mem_append, List.mem_singleton] at hc
          rcases hc with hc | hc
          · exact hcl c hc
          · subst hc
            exact goodCluster_of_gbuf s.gbuf hgb hnd
        · intro t ht
          simp only [List.mem_singleton] at ht
          subst ht
          exact ⟨by simp [isMeasB, hm], by simp [hqs]⟩
      · have hmem' : ¬∃ x ∈ s.gbuf, x.qubits.head?.getD "" = q := by
          rintro ⟨x, hx, hxq⟩
          exact hmem (by simpa using List.mem_map.mpr ⟨x, hx, hxq⟩)
        have hstep : clusterStep s item = { s with gbuf := s.gbuf ++ [item] } := by
          simp [clusterStep, hqs, hm, hmem']
        rw [hstep]
        refine ⟨hcl, ?_, ?_, hmb⟩
        · intro t ht
          simp only [List.mem_append, List.mem_singleton] at ht
          rcases ht with ht | ht
          · exact hgb t ht
          · subst ht
            exact ⟨by simp [isMeasB, hm], by simp [hqs]⟩
        · rw [List.map_append, List.map_cons, List.map_nil, List.nodup_append]
          refine ⟨hnd, by simp, ?_⟩
          intro x hx hx2
          simp only [hqs, List.headD_cons, List.mem_singleton] at hx2
          subst hx2
          exact hmem hx
  · exact clusterStep_catchall_inv s item ⟨hcl, hgb, hnd, hmb⟩
      (by simp [clusterStep, hqs, clusterFlush, List.append_assoc])

lemma clusterFold_inv :
    ∀ (l : List GateTuple) (s : ClusterState), ClusterInv s →
      ClusterInv (l.foldl clusterStep s) := by
  intro l
  induction l with
  | nil =>
    intro s hs
    exact hs
  | cons item rest ih =>
    intro s hs
    exact ih (clusterStep s item) (clusterStep_inv s item hs)

/-- Claim C3, amended: every cluster emitted by `_make_cluster_gates` is
uniform (it never mixes measurement tuples with non-measurement tuples),
and every cluster of non-measurement tuples has pairwise disjoint
target/control qubit labels.  (A cluster of measurement tuples may repeat a
qubit label, as the counterexample shows.) -/
theorem make_cluster_gates_clusters_good (l : List GateTuple) (c : List GateTuple)
    (hc : c ∈ make_cluster_gates l) :
    uniformMeasB c = true ∧
      ((c.all fun t => !(isMeasB t)) = true → pairwiseDisjointB c = true) := by
  have hinv : ClusterInv (l.foldl clusterStep ⟨[], [], []⟩) :=
    clusterFold_inv l ⟨[], [], []⟩ ⟨by simp, by simp, by simp, by simp⟩
  exact goodCluster_flush_mem _ hinv c hc

/-- Witness for the amended C3 at a concrete mixed input. -/
theorem make_cluster_gates_clusters_good_witness :
    uniformMeasB [⟨"H", ["q_0"]⟩, ⟨"X", ["q_1"]⟩] = true ∧
      (([⟨"H", ["q_0"]⟩, ⟨"X", ["q_1"]⟩].all fun t => !(isMeasB t)) = true →
        pairwiseDisjointB [⟨"H", ["q_0"]⟩, ⟨"X", ["q_1"]⟩] = true) :=
  make_cluster_gates_clusters_good
    [⟨"H", ["q_0"]⟩, ⟨"X", ["q_1"]⟩, ⟨"MEASURE", ["q_0"]⟩]
    [⟨"H", ["q_0"]⟩, ⟨"X", ["q_1"]⟩] (by decide)

@[simp] lemma optOr_none (b : Option ℕ) : optOr none b = b := rfl

@[simp] lemma optOr_some (x : ℕ) (b : Option ℕ) : optOr (some x) b = some x := rfl

lemma mwAux_eq_latestO :
    ∀ (l : List GateTuple) (labels : List String) (i : ℕ) (m : ℕ → Option ℕ) (w : ℕ),
      mwAux labels i m l w = optOr (latestO labels i l w) (m w) := by
  intro l
  induction l with
  | nil =>
    intro labels i m w
    rfl
  | cons g rest ih =>
    intro labels i m w
    simp only [mwAux]
    rw [ih, latestO]
    cases hL : latestO labels (i + 1) rest w with
    | some j => rfl
    | none =>
      simp only [optOr_none]
      by_cases hS : strStartsWith g.name "M" = true
      · rw [if_pos hS]
        by_cases hw : w = get_flipped_index (g.qubits.headD "") labels
        · rw [if_pos hw, if_pos ⟨hS, hw.symm⟩]
          rfl
        · rw [if_neg hw, if_neg (fun hc => hw hc.2.symm)]
          rfl
      · rw [if_neg hS, if_neg (fun hc => hS hc.1)]
        rfl

lemma latestO_spec :
    ∀ (l : List GateTuple) (labels : List String) (i w : ℕ),
      (latestO labels i l w = none ∧ ∀ k, measCondAt l labels w k = false) ∨
      (∃ j k, latestO labels i l w = some j ∧ j = i + k ∧
        measCondAt l labels w k = true ∧
        ∀ k', measCondAt l labels w k' = true → k' ≤ k) := by
  intro l
  induction l with
  | nil =>
    intro labels i w
    left
    exact ⟨rfl, fun k => by simp [measCondAt]⟩
  | cons g rest ih =>
    intro labels i w
    have hcons0 : measCondAt (g :: rest) labels w 0 =
        (strStartsWith g.name "M" &&
          decide (get_flipped_index (g.qubits.headD "") labels = w)) := by
      simp [measCondAt]
    have hconsS : ∀ k, measCondAt (g :: rest) labels w (k + 1) = measCondAt rest labels w k := by
      intro k
      simp [measCondAt]
    rcases ih labels (i + 1) w with ⟨hnone, hall⟩ | ⟨j, k, hsome, hjk, hck, hmax⟩
    · rw [latestO, hnone]
      by_cases hc : strStartsWith g.name "M" = true ∧
          get_flipped_index (g.qubits.headD "") labels = w
      · right
        refine ⟨i, 0, ?_, by omega, ?_, ?_⟩
        · rw [if_pos hc]
          rfl
        · rw [hcons0, hc.1]
          simp only [Bool.true_and, decide_eq_true_eq]
          exact hc.2
        · intro k' hk'
          cases k' with
          | zero => omega
          | succ n =>
            rw [hconsS n, hall n] at hk'
            exact absurd hk' (by simp)
      · left
        refine ⟨by rw [if_neg hc]; rfl, ?_⟩
        intro k
        cases k with
        | zero =>
          rw [hcons0]
          by_cases hS : strStartsWith g.name "M" = true
          · rw [hS]
            simp only [Bool.true_and, decide_eq_false_iff_not]
            intro hw
            exact hc ⟨hS, hw⟩
          · have hS' : strStartsWith g.name "M" = false := by
              rwa [Bool.not_eq_true] at hS
            rw [hS']
            rfl
        | succ n =>
          rw [hconsS n]
          exact hall n
    · right
      refine ⟨j, k + 1, ?_, by omega, ?_, ?_⟩
      · rw [latestO, hsome]
        rfl
      · rw [hconsS k]
        exact hck
      · intro k' hk'
        cases k' with
        | zero => omega
        | succ n =>
          rw [hconsS n] at hk'
          exact Nat.succ_le_succ (hmax n hk')

lemma measured_wires_eq_latestO (l : List GateTuple) (labels : List String) (w : ℕ) :
    measured_wires l labels w = optOr (latestO labels 0 l w) none :=
  mwAux_eq_latestO l labels 0 (fun _ => none) w

/-- Counterexample to claim C4 as stated: with two `MEASURE` tuples on
`q_0`, the dict write `measured[j] = i` at line 160 overwrites the earlier
entry, so wire 0 is mapped to column 1, not to the earliest column 0. -/
theorem claimC4_counterexample :
    ¬ claimC4 [⟨"MEASURE", ["q_0"]⟩, ⟨"MEASURE", ["q_0"]⟩] ["q_0"] := by
  intro h
  obtain ⟨i, hci, hmin, hmw⟩ := h 0 ⟨0, by decide⟩
  have hmw1 : measured_wires [⟨"MEASURE", ["q_0"]⟩, ⟨"MEASURE", ["q_0"]⟩] ["q_0"] 0 =
      some 1 := by decide
  rw [hmw1] at hmw
  have hi : i = 1 := by
    have := Option.some.inj hmw
    omega
  subst hi
  have h0 := hmin 0 (by omega)
  have h0' : measCondAt [⟨"MEASURE", ["q_0"]⟩, ⟨"MEASURE", ["q_0"]⟩] ["q_0"] 0 0 = true := by
    decide
  rw [h0'] at h0
  exact absurd h0 (by simp)

lemma measured_wires_latest_core (l : List GateTuple) (labels : List String) (w : ℕ) :
    (measured_wires l labels w = none ↔ ∀ k, measCondAt l labels w k = false) ∧
    (∀ j, measured_wires l labels w = some j →
      measCondAt l labels w j = true ∧
        ∀ k, measCondAt l labels w k = true → k ≤ j) := by
  have heq := measured_wires_eq_latestO l labels w
  rcases latestO_spec l labels 0 w with ⟨hnone, hall⟩ | ⟨j, k, hsome, hjk, hck, hmax⟩
  · rw [hnone] at heq
    constructor
    · exact ⟨fun _ => hall, fun _ => by rw [heq]; rfl⟩
    · intro j hj
      rw [heq] at hj
      exact absurd hj (by simp)
  · rw [hsome] at heq
    have hj : j = k := by omega
    subst hj
    constructor
    · constructor
      · intro h0
        rw [heq] at h0
        exact absurd h0 (by simp)
      · intro hall
        rw [hall j] at hck
        exact absurd hck (by simp)
    · intro j' hj'
      rw [heq] at hj'
      have : j = j' := Option.some.inj hj'
      subst this
      exact ⟨hck, hmax⟩

/-- Claim C4, amended: `_measured_wires` maps a wire to the *latest*
(largest) column index at which a tuple whose name starts with `"M"` has
its target on that wire; the mapping has an entry for a wire exactly when
such a tuple exists. -/
theorem measured_wires_latest (l : List GateTuple) (labels : List String) (w : ℕ) :
    (measured_wires l labels w = none ↔ ∀ k, measCondAt l labels w k = false) ∧
    (∀ j, measured_wires l labels w = some j →
      measCondAt l labels w j = true ∧
        ∀ k, measCondAt l labels w k = true → k ≤ j) :=
  measured_wires_latest_core l labels w

/-- Witness for the amended C4: on `[("MEASURE","q_0")]` with labels
`["q_0"]`, the recorded column 0 is a measurement column. -/
theorem measured_wires_latest_witness :
    measCondAt [⟨"MEASURE", ["q_0"]⟩] ["q_0"] 0 0 = true :=
  ((measured_wires_latest [⟨"MEASURE", ["q_0"]⟩] ["q_0"] 0).2 0 (by decide)).1

/-- Claim C10: a wire has an entry in the `_measured_wires` mapping iff some
tuple whose name starts with `"M"` has its target on that wire (hence the
two-qubit `"MS"` tuple marks its target wire), whereas the clusterer routes
a single-qubit tuple to the measurement bucket exactly when its name equals
`"MEASURE"`. -/
theorem measured_wires_prefix_vs_cluster_measure :
    (∀ (l : List GateTuple) (labels : List String) (w : ℕ),
      (∃ j, measured_wires l labels w = some j) ↔
        (∃ i, measCondAt l labels w i = true)) ∧
    (measured_wires [⟨"MS", ["q_0", "q_1"]⟩] ["q_0", "q_1"] 1 = some 0) ∧
    (∀ (s : ClusterState) (item : GateTuple) (q : String), item.qubits = [q] →
      ((clusterStep s item).mbuf = s.mbuf ++ [item] ↔ item.name = "MEASURE")) := by
  refine ⟨?_, by decide, ?_⟩
  · intro l labels w
    obtain ⟨hnone, hsome⟩ := measured_wires_latest_core l labels w
    constructor
    · rintro ⟨j, hj⟩
      exact ⟨j, (hsome j hj).1⟩
    · rintro ⟨i, hi⟩
      cases hmw : measured_wires l labels w with
      | some j => exact ⟨j, rfl⟩
      | none =>
        rw [hnone.mp hmw i] at hi
        exact absurd hi (by simp)
  · intro s item q hq
    constructor
    · intro hmb
      by_contra hname
      have : (clusterStep s item).mbuf = s.mbuf := by
        rw [clusterStep]
        rw [hq]
        simp only [if_neg hname]
        by_cases hmem : q ∈ s.gbuf.map (fun tup => tup.qubits.headD "")
        · have hmem' : ∃ x ∈ s.gbuf, x.qubits.head?.getD "" = q := by simpa using hmem
          simp [hmem']
        · have hmem' : ¬∃ x ∈ s.gbuf, x.qubits.head?.getD "" = q := by
            rintro ⟨x, hx, hxq⟩
            exact hmem (by simpa using List.mem_map.mpr ⟨x, hx, hxq⟩)
          simp [hmem']
      rw [this] at hmb
      have : s.mbuf.length = s.mbuf.length + 1 := by
        conv_lhs => rw [hmb]
        simp
      omega
    · intro hname
      rw [clusterStep, hq]
      simp [hname]

/-- Witness for C10: routing the concrete tuple `("MEASURE","q_0")` through
the clusterer from the empty state appends it to the measurement bucket. -/
theorem measured_wires_prefix_vs_cluster_measure_witness :
    (clusterStep ⟨[], [], []⟩ ⟨"MEASURE", ["q_0"]⟩).mbuf = [] ++ [⟨"MEASURE", ["q_0"]⟩] :=
  (measured_wires_prefix_vs_cluster_measure.2.2 ⟨[], [], []⟩ ⟨"MEASURE", ["q_0"]⟩
    "q_0" rfl).mpr rfl

lemma firstDedup_nil : firstDedup [] = [] := by
  rw [firstDedup.eq_def]

lemma firstDedup_cons (a : String) (l : List String) :
    firstDedup (a :: l) = a :: firstDedup (l.filter (fun x => decide (x ≠ a))) := by
  rw [firstDedup.eq_def]

lemma mem_firstDedup_aux :
    ∀ (n : ℕ) (l : List String), l.length ≤ n → ∀ x, (x ∈ firstDedup l ↔ x ∈ l) := by
  intro n
  induction n with
  | zero =>
    intro l hl x
    have : l = [] := List.length_eq_zero.mp (Nat.le_zero.mp hl)
    subst this
    rw [firstDedup_nil]
  | succ n ih =>
    intro l hl x
    cases l with
    | nil => rw [firstDedup_nil]
    | cons a t =>
      rw [firstDedup_cons]
      have hlen : (t.filter (fun x => decide (x ≠ a))).length ≤ n := by
        have h1 := List.length_filter_le (fun x => decide (x ≠ a)) t
        simp only [List.length_cons] at hl
        omega
      constructor
      · intro hx
        rcases List.mem_cons.mp hx with hx | hx
        · simp [hx]
        · have := (ih _ hlen x).mp hx
          have := List.mem_of_mem_filter this
          simp [this]
      · intro hx
        rcases List.mem_cons.mp hx with hx | hx
        · simp [hx]
        · by_cases hxa : x = a
          · simp [hxa]
          · refine List.mem_cons.mpr (Or.inr ?_)
            refine (ih _ hlen x).mpr ?_
            exact List.mem_filter.mpr ⟨hx, by simp [hxa]⟩

lemma mem_firstDedup (l : List String) (x : String) : x ∈ firstDedup l ↔ x ∈ l :=
  mem_firstDedup_aux l.length l (Nat.le_refl _) x

lemma nodup_firstDedup_aux :
    ∀ (n : ℕ) (l : List String), l.length ≤ n → (firstDedup l).Nodup := by
  intro n
  induction n with
  | zero =>
    intro l hl
    have : l = [] := List.length_eq_zero.mp (Nat.le_zero.mp hl)
    subst this
    rw [firstDedup_nil]
    exact List.nodup_nil
  | succ n ih =>
    intro l hl
    cases l with
    | nil =>
      rw [firstDedup_nil]
      exact List.nodup_nil
    | cons a t =>
      rw [firstDedup_cons]
      have hlen : (t.filter (fun x => decide (x ≠ a))).length ≤ n := by
        have h1 := List.length_filter_le (fun x => decide (x ≠ a)) t
        simp only [List.length_cons] at hl
        omega
      refine List.nodup_cons.mpr ⟨?_, ih _ hlen⟩
      intro ha
      have := (mem_firstDedup _ a).mp ha
      have := (List.mem_filter.mp this).2
      simp at this

lemma nodup_firstDedup (l : List String) : (firstDedup l).Nodup :=
  nodup_firstDedup_aux l.length l (Nat.le_refl _)

lemma foldl_labels_eq_firstDedup :
    ∀ (xs acc : List String),
      xs.foldl (fun acc lab => if lab ∈ acc then acc else acc ++ [lab]) acc =
        acc ++ firstDedup (xs.filter (fun x => decide (x ∉ acc))) := by
  intro xs
  induction xs with
  | nil =>
    intro acc
    simp [firstDedup_nil]
  | cons x xs ih =>
    intro acc
    rw [List.foldl_cons]
    by_cases hx : x ∈ acc
    · rw [if_pos hx, ih, List.filter_cons]
      simp [hx]
    · rw [if_neg hx, ih, List.filter_cons]
      rw [if_pos (by simpa using hx)]
      rw [firstDedup_cons]
      have hff : xs.filter (fun y => decide (y ∉ acc ++ [x])) =
          (xs.filter (fun y => decide (y ∉ acc))).filter (fun y => decide (y ≠ x)) := by
        rw [List.filter_filter]
        refine List.filter_congr ?_
        intro y _
        by_cases h1 : y = x
        · simp [h1]
        · by_cases h2 : y ∈ acc
          · simp [h1, h2]
          · simp [h1, h2]
      rw [hff, List.append_assoc]
      rfl

/-- Claim C5: the label list inferred by the plotting functions (when no
explicit list is supplied) is exactly the first-occurrence deduplication of
the qubit fields of all gate tuples in traversal order; in particular it is
duplicate-free, its size is the number of distinct qubit labels referenced,
and it contains exactly the referenced labels. -/
theorem inferLabels_spec (gs : List GateTuple) :
    inferLabels gs = firstDedup (allLabels gs) ∧
    (inferLabels gs).length = (allLabels gs).toFinset.card ∧
    (inferLabels gs).Nodup ∧
    (∀ x, x ∈ inferLabels gs ↔ x ∈ allLabels gs) := by
  have h1 : inferLabels gs = firstDedup (allLabels gs) := by
    rw [inferLabels]
    rw [foldl_labels_eq_firstDedup]
    rw [List.nil_append]
    congr 1
    rw [show (gs.map GateTuple.qubits).flatten = allLabels gs from rfl]
    refine List.filter_eq_self.mpr ?_
    intro a _
    simp
  have hnd : (inferLabels gs).Nodup := by
    rw [h1]
    exact nodup_firstDedup _
  have hmem : ∀ x, x ∈ inferLabels gs ↔ x ∈ allLabels gs := by
    intro x
    rw [h1]
    exact mem_firstDedup _ x
  refine ⟨h1, ?_, hnd, hmem⟩
  have hfin : (inferLabels gs).toFinset = (allLabels gs).toFinset := by
    ext x
    simp only [List.mem_toFinset]
    exact hmem x
  rw [← hfin, List.toFinset_card_of_nodup hnd]

lemma get_flipped_index_get (labels : List String) (hnd : labels.Nodup)
    (i : ℕ) (hi : i < labels.length) :
    get_flipped_index (labels.get ⟨i, hi⟩) labels = labels.length - i - 1 := by
  rw [get_flipped_index, List.get_indexOf hnd]

lemma wireGrid_getElem (n : ℕ) (s : ℚ) (k : ℕ) (hk : k < n) :
    (wireGrid n s)[k]? = some ((k : ℚ) * s) := by
  rw [wireGrid, List.getElem?_map, List.getElem?_range hk]
  rfl

/-- Claim C6: for a duplicate-free label list of length `n` and a positive
scale `s`, the wire coordinate of the label at list index `i` is
`(n - 1 - i) * s`, and these coordinates strictly decrease as the list index
increases. -/
theorem wire_coordinates (labels : List String) (s : ℚ) (i j : ℕ)
    (hnd : labels.Nodup) (hi : i < labels.length) (hj : j < labels.length)
    (hij : i < j) (hs : 0 < s) :
    wireCoordOf labels s (labels.get ⟨i, hi⟩) =
        some (((labels.length : ℚ) - 1 - i) * s) ∧
    wireCoordOf labels s (labels.get ⟨j, hj⟩) =
        some (((labels.length : ℚ) - 1 - j) * s) ∧
    ((labels.length : ℚ) - 1 - j) * s < ((labels.length : ℚ) - 1 - i) * s := by
  have hcast : ∀ k : ℕ, k < labels.length →
      ((labels.length - k - 1 : ℕ) : ℚ) = (labels.length : ℚ) - 1 - k := by
    intro k hk
    have h1 : (labels.length - k - 1 : ℕ) = labels.length - (k + 1) := by omega
    rw [h1, Nat.cast_sub (by omega)]
    push_cast
    ring
  have hcoord : ∀ k : ℕ, ∀ hk : k < labels.length,
      wireCoordOf labels s (labels.get ⟨k, hk⟩) =
        some (((labels.length : ℚ) - 1 - k) * s) := by
    intro k hk
    rw [wireCoordOf, get_flipped_index_get labels hnd k hk,
      wireGrid_getElem _ _ _ (by omega), hcast k hk]
  refine ⟨hcoord i hi, hcoord j hj, ?_⟩
  have hlt : (labels.length : ℚ) - 1 - j < (labels.length : ℚ) - 1 - i := by
    have : (i : ℚ) < (j : ℚ) := by exact_mod_cast hij
    linarith
  exact mul_lt_mul_of_pos_right hlt hs

/-- Witness for C6 on the two-label list at scale 1. -/
theorem wire_coordinates_witness :
    wireCoordOf ["q_0", "q_1"] 1 (["q_0", "q_1"].get ⟨0, by norm_num⟩) =
        some (((["q_0", "q_1"].length : ℚ) - 1 - 0) * 1) ∧
    wireCoordOf ["q_0", "q_1"] 1 (["q_0", "q_1"].get ⟨1, by norm_num⟩) =
        some (((["q_0", "q_1"].length : ℚ) - 1 - 1) * 1) ∧
    ((["q_0", "q_1"].length : ℚ) - 1 - 1) * 1 <
      ((["q_0", "q_1"].length : ℚ) - 1 - 0) * 1 :=
  wire_coordinates ["q_0", "q_1"] 1 0 1 (by decide) (by norm_num) (by norm_num)
    (by norm_num) (by norm_num)

/-- Claim C7: the helper's intended contract versus the code.  The embedded
`_check_list_str` raises `TypeError` on every call (its body iterates the
builtin type `list`), while the spec's contract returns true when some
substring occurs. -/
theorem check_list_str_bug :
    check_list_str ["a"] "abc" = .error .typeError ∧
    check_list_str_spec ["a"] "abc" = true :=
  ⟨rfl, by decide⟩

lemma process_gate_step_err (g : QGate) : process_gate_step g = .error .typeError := rfl

lemma process_gates_cons_err (g : QGate) (rest : List QGate) :
    process_gates (g :: rest) = .error .typeError := rfl

/-- Claim C8: the entanglement-entropy fan-out cannot run.  Evaluating
`_process_gates` on a list holding an `EntanglementEntropy` gate raises
`TypeError` already inside `_check_list_str`; and even the fan-out branch in
isolation raises `NameError`, since the qubit count is read from the
undefined module-level name `circuit`. -/
theorem process_gates_entanglement_entropy_bug :
    process_gates [⟨"EntanglementEntropy", [0], [], "EntanglementEntropy"⟩] =
        .error .typeError ∧
    entanglement_entropy_fanout moduleCircuitNQubits "ENTANGLEMENTENTROPY" =
        .error .nameError :=
  ⟨rfl, rfl⟩

lemma isErr_bind_left {α β : Type} (ex : Except PyError α) (k : α → Except PyError β)
    (h : isErr ex) : isErr (ex >>= k) := by
  obtain ⟨e, he⟩ := h
  subst he
  exact ⟨e, rfl⟩

lemma isErr_bind_all {α β : Type} (ex : Except PyError α) (k : α → Except PyError β)
    (h : ∀ x, isErr (k x)) : isErr (ex >>= k) := by
  cases ex with
  | error e => exact ⟨e, rfl⟩
  | ok x => exact h x

lemma textH_err (pp : PlotParams) (x y : ℚ) (s : String) (b : Bool) :
    textH pp x y s b = .error .typeError := rfl

lemma drawLabelsAux_cons_isErr (all_labels : List String) (inits : List ℕ)
    (wire_grid : List ℚ) (pp : PlotParams) (x : ℚ) (acc : List DrawPrim)
    (lab : String) (rest : List String) :
    isErr (drawLabelsAux all_labels inits wire_grid pp x acc (lab :: rest)) := by
  simp only [drawLabelsAux]
  apply isErr_bind_all
  intro y
  apply isErr_bind_left
  exact ⟨.typeError, textH_err pp x y (render_label lab inits) false⟩

lemma draw_labels_isErr (labels : List String) (inits : List ℕ)
    (gate_grid wire_grid : List ℚ) (pp : PlotParams) (h : labels ≠ []) :
    isErr (draw_labels labels inits gate_grid wire_grid pp) := by
  cases labels with
  | nil => exact absurd rfl h
  | cons lab rest =>
    simp only [draw_labels]
    apply isErr_bind_all
    intro g0
    apply isErr_bind_all
    intro gl
    exact drawLabelsAux_cons_isErr _ _ _ _ _ _ _ _

lemma plot_quantum_circuit_isErr (symbols : String → Option String)
    (gs : List GateTuple) (inits : List ℕ) (labels0 : List String)
    (pp : PlotParams) (h : labels0 ≠ []) :
    isErr (plot_quantum_circuit symbols gs inits labels0 pp) := by
  have hie : labels0.isEmpty = false := by
    cases labels0 with
    | nil => exact absurd rfl h
    | cons a l => rfl
  simp only [plot_quantum_circuit, hie, Bool.false_eq_true, if_false]
  apply isErr_bind_all
  intro fig
  apply isErr_bind_all
  intro wires
  apply isErr_bind_left
  exact draw_labels_isErr _ _ _ _ _ h

lemma plot_quantum_schedule_isErr (symbols : String → Option String)
    (schedule : List (List GateTuple)) (inits : List ℕ) (labels0 : List String)
    (pp : PlotParams) (h : labels0 ≠ []) :
    isErr (plot_quantum_schedule symbols schedule inits labels0 pp) := by
  have hie : labels0.isEmpty = false := by
    cases labels0 with
    | nil => exact absurd rfl h
    | cons a l => rfl
  simp only [plot_quantum_schedule, hie, Bool.false_eq_true, if_false]
  apply isErr_bind_all
  intro fig
  apply isErr_bind_all
  intro wires
  apply isErr_bind_left
  exact draw_labels_isErr _ _ _ _ _ h

lemma plot_lines_circuit_isErr (inits : List ℕ) (labels : List String)
    (pp : PlotParams) (h : labels ≠ []) :
    isErr (plot_lines_circuit inits labels pp) := by
  simp only [plot_lines_circuit]
  apply isErr_bind_all
  intro fig
  apply isErr_bind_all
  intro wires
  apply isErr_bind_left
  exact draw_labels_isErr _ _ _ _ _ h

/-- Claim C1: `plot` never returns an artifact at all.  On every circuit
with at least one qubit the render raises — for a non-empty queue,
`_process_gates` (or already the fused-group expansion) raises `TypeError`
inside `_check_list_str`; for an empty queue, drawing the wire labels
raises the same error inside `_text`.  So `plot(c) == plot(c)` never
compares two artifacts, and the repository's own test
`plot_circuit(circ) == plot_circuit(circ)` cannot pass. -/
theorem plot_always_raises (symbols : String → Option String) (stylePP : PlotParams)
    (c : QCircuit) (scale : ℚ) (cluster_gates : Bool) (h : 0 < c.nqubits) :
    isErr (plot symbols stylePP c scale cluster_gates) := by
  have hlabels : ((List.range c.nqubits).map (fun i => "q_" ++ natToStr i)) ≠ [] := by
    intro hc
    rw [List.map_eq_nil_iff, List.range_eq_nil] at hc
    omega
  simp only [plot]
  by_cases hq : c.queue.length > 0
  · rw [if_pos hq]
    apply isErr_bind_all
    intro all_gates
    apply isErr_bind_all
    intro gates_plot
    cases cluster_gates with
    | true =>
      simp only [if_true]
      exact plot_quantum_schedule_isErr _ _ _ _ _ hlabels
    | false =>
      simp only [Bool.false_eq_true, if_false]
      exact plot_quantum_circuit_isErr _ _ _ _ _ hlabels
  · rw [if_neg hq]
    exact plot_lines_circuit_isErr _ _ _ hlabels

/-- Witness for C1 at the repository's own test circuit
`[H(0), CNOT(0,1), M(0), M(1)]` on two qubits, with empty symbol table and
default style. -/
theorem plot_always_raises_witness :
    isErr (plot (fun _ => none) defaultPlotParams
      ⟨2, [.plain ⟨"h", [0], [], "H"⟩, .plain ⟨"cx", [1], [0], "X"⟩,
        .plain ⟨"measure", [0], [], "M"⟩, .plain ⟨"measure", [1], [], "M"⟩]⟩
      (3 / 5) true) :=
  plot_always_raises (fun _ => none) defaultPlotParams
    ⟨2, [.plain ⟨"h", [0], [], "H"⟩, .plain ⟨"cx", [1], [0], "X"⟩,
      .plain ⟨"measure", [0], [], "M"⟩, .plain ⟨"measure", [1], [], "M"⟩]⟩
    (3 / 5) true (by norm_num)

@[simp] lemma exceptPure_def {α : Type} (a : α) :
    (pure a : Except PyError α) = Except.ok a := rfl

@[simp] lemma exceptBind_ok {α β : Type} (a : α) (k : α → Except PyError β) :
    (Except.ok a >>= k) = k a := rfl

@[simp] lemma exceptBind_err {α β : Type} (e : PyError) (k : α → Except PyError β) :
    ((Except.error e : Except PyError α) >>= k) = Except.error e := rfl

lemma gridGet_wireGrid (n : ℕ) (s : ℚ) (k : ℕ) (hk : k < n) :
    gridGet (wireGrid n s) k = .ok ((k : ℚ) * s) := by
  rw [gridGet, wireGrid_getElem n s k hk]

lemma draw_controls_barrier2_eval (i n : ℕ) (hn : i + 2 < n) :
    draw_controls (fun _ => none) i ⟨"FUSEDSTARTGATEBARRIER2", ["q_0", "q_1"]⟩
        ["q_0", "q_1"] (wireGrid n (3 / 5)) (wireGrid 2 (3 / 5)) pp35 (fun _ => none) =
      .ok [DrawPrim.rectP (((i : ℚ) + 1) * (3 / 5) - 3 / 10) (-(1 / 4)) (6 / 5) (11 / 10)] := by
  have hEnd : strContains "FUSEDSTARTGATEBARRIER2" "FUSEDENDGATEBARRIER" = false := by decide
  have hStart : strContains "FUSEDSTARTGATEBARRIER2" "FUSEDSTARTGATEBARRIER" = true := by decide
  have hEq : strContains "FUSEDSTARTGATEBARRIER2" "@EQUAL" = false := by decide
  have hNum : digitsToNat? (strReplace "FUSEDSTARTGATEBARRIER2" "FUSEDSTARTGATEBARRIER" "") =
      some 2 := by decide
  have hflip0 : get_flipped_index "q_0" ["q_0", "q_1"] = 1 := by decide
  have hflip1 : get_flipped_index "q_1" ["q_0", "q_1"] = 0 := by decide
  have hg1 : gridGet (wireGrid n (3 / 5)) (i + 1) = .ok (((i + 1 : ℕ) : ℚ) * (3 / 5)) :=
    gridGet_wireGrid n (3 / 5) (i + 1) (by omega)
  have hg2 : gridGet (wireGrid n (3 / 5)) (i + 2) = .ok (((i + 2 : ℕ) : ℚ) * (3 / 5)) :=
    gridGet_wireGrid n (3 / 5) (i + 2) (by omega)
  have hw0 : gridGet (wireGrid 2 (3 / 5)) 0 = .ok (((0 : ℕ) : ℚ) * (3 / 5)) :=
    gridGet_wireGrid 2 (3 / 5) 0 (by omega)
  have hw1 : gridGet (wireGrid 2 (3 / 5)) 1 = .ok (((1 : ℕ) : ℚ) * (3 / 5)) :=
    gridGet_wireGrid 2 (3 / 5) 1 (by omega)
  have hmin : Min.min (1 : ℕ) 0 = 0 := by decide
  have hmax : Max.max (1 : ℕ) 0 = 1 := by decide
  simp only [draw_controls, hEnd, Bool.false_eq_true, if_false, hStart, if_true, hEq,
    get_flipped_indices, List.map_cons, List.map_nil, List.headD_cons, List.tail_cons,
    hflip0, hflip1, List.foldl_cons, List.foldl_nil, hmin, hmax, hNum,
    exceptPure_def, exceptBind_ok, hg1, hg2, hw0, hw1, sub_zero, rectangleH]
  push_cast
  have hi0 : (0 : ℚ) ≤ (i : ℚ) := Nat.cast_nonneg i
  have e1 : Min.min (((i : ℚ) + 1) * (3 / 5) - 3 / 10) (((i : ℚ) + 2) * (3 / 5) + 3 / 10) =
      ((i : ℚ) + 1) * (3 / 5) - 3 / 10 := min_eq_left (by linarith)
  have e2 : Min.min ((0 : ℚ) * (3 / 5) - 1 / 4) ((1 : ℚ) * (3 / 5) + 1 / 4) =
      -(1 / 4) := by
    rw [min_eq_left (by norm_num)]
    norm_num
  have e3 : |((i : ℚ) + 2) * (3 / 5) + 3 / 10 - (((i : ℚ) + 1) * (3 / 5) - 3 / 10)| =
      (6 : ℚ) / 5 := by
    rw [show ((i : ℚ) + 2) * (3 / 5) + 3 / 10 - (((i : ℚ) + 1) * (3 / 5) - 3 / 10) =
      (6 : ℚ) / 5 from by ring]
    rw [abs_of_nonneg (by norm_num)]
  have e4 : |(1 : ℚ) * (3 / 5) + 1 / 4 - ((0 : ℚ) * (3 / 5) - 1 / 4)| = (11 : ℚ) / 10 := by
    rw [show (1 : ℚ) * (3 / 5) + 1 / 4 - ((0 : ℚ) * (3 / 5) - 1 / 4) = (11 : ℚ) / 10 from
      by ring]
    rw [abs_of_nonneg (by norm_num)]
  rw [e1, e2, e3, e4]

/-- Counterexample to claim C9 as stated: on a fused group over qubits 0-1
with 2 inner gates (start barrier at column `i = 0`, inner columns 1 and 2,
end barrier at column 3, default scale `0.6`), the dashed rectangle runs
from `x = 0.3` to `x = 1.5`, so it does not reach the barrier columns'
coordinates `0` and `1.8`: the span covers only the inner gate columns, not
"the 2 inner gate columns plus the two barrier columns". -/
theorem claimC9_counterexample :
    (draw_controls (fun _ => none) 0 ⟨"FUSEDSTARTGATEBARRIER2", ["q_0", "q_1"]⟩
        ["q_0", "q_1"] (wireGrid 4 (3 / 5)) (wireGrid 2 (3 / 5)) pp35 (fun _ => none) =
      .ok [DrawPrim.rectP ((((0 : ℕ) : ℚ) + 1) * (3 / 5) - 3 / 10) (-(1 / 4))
        (6 / 5) (11 / 10)]) ∧
    ¬ rectCoversColumn (DrawPrim.rectP ((((0 : ℕ) : ℚ) + 1) * (3 / 5) - 3 / 10)
        (-(1 / 4)) (6 / 5) (11 / 10)) (3 / 5) 0 ∧
    ¬ rectCoversColumn (DrawPrim.rectP ((((0 : ℕ) : ℚ) + 1) * (3 / 5) - 3 / 10)
        (-(1 / 4)) (6 / 5) (11 / 10)) (3 / 5) 3 := by
  refine ⟨draw_controls_barrier2_eval 0 4 (by omega), ?_, ?_⟩
  · simp only [rectCoversColumn]
    rintro ⟨h1, _⟩
    norm_num at h1
  · simp only [rectCoversColumn]
    rintro ⟨_, h2⟩
    norm_num at h2

/-- Claim C9, amended: the dashed rectangle drawn for a fused group with 2
inner gate columns spans exactly those 2 inner columns (with a `0.3`
horizontal margin, half a column at the default scale `0.6`); the two
barrier columns lie outside its span. -/
theorem fused_rectangle_spans_inner_columns (i n : ℕ) (hn : i + 2 < n) :
    (draw_controls (fun _ => none) i ⟨"FUSEDSTARTGATEBARRIER2", ["q_0", "q_1"]⟩
        ["q_0", "q_1"] (wireGrid n (3 / 5)) (wireGrid 2 (3 / 5)) pp35 (fun _ => none) =
      .ok [DrawPrim.rectP (((i : ℚ) + 1) * (3 / 5) - 3 / 10) (-(1 / 4))
        (6 / 5) (11 / 10)]) ∧
    (∀ k : ℕ, rectCoversColumn (DrawPrim.rectP (((i : ℚ) + 1) * (3 / 5) - 3 / 10)
        (-(1 / 4)) (6 / 5) (11 / 10)) (3 / 5) k ↔ (i + 1 ≤ k ∧ k ≤ i + 2)) := by
  refine ⟨draw_controls_barrier2_eval i n hn, ?_⟩
  intro k
  simp only [rectCoversColumn]
  constructor
  · rintro ⟨h1, h2⟩
    constructor
    · have hik : (i : ℚ) < (k : ℚ) := by linarith
      have : i < k := by exact_mod_cast hik
      omega
    · have hki : (k : ℚ) < (i : ℚ) + 3 := by linarith
      have h3 : (k : ℚ) < ((i + 3 : ℕ) : ℚ) := by
        push_cast
        linarith
      have : k < i + 3 := by exact_mod_cast h3
      omega
  · rintro ⟨h1, h2⟩
    have h1' : (i : ℚ) + 1 ≤ (k : ℚ) := by exact_mod_cast h1
    have h2' : (k : ℚ) ≤ (i : ℚ) + 2 := by exact_mod_cast h2
    constructor
    · linarith
    · linarith

/-- Witness for the amended C9 at the start barrier in column 0 of a
4-column grid: the rectangle is drawn as computed and covers inner
column 1. -/
theorem fused_rectangle_spans_inner_columns_witness :
    (draw_controls (fun _ => none) 0 ⟨"FUSEDSTARTGATEBARRIER2", ["q_0", "q_1"]⟩
        ["q_0", "q_1"] (wireGrid 4 (3 / 5)) (wireGrid 2 (3 / 5)) pp35 (fun _ => none) =
      .ok [DrawPrim.rectP ((((0 : ℕ) : ℚ) + 1) * (3 / 5) - 3 / 10) (-(1 / 4))
        (6 / 5) (11 / 10)]) ∧
    rectCoversColumn (DrawPrim.rectP ((((0 : ℕ) : ℚ) + 1) * (3 / 5) - 3 / 10)
      (-(1 / 4)) (6 / 5) (11 / 10)) (3 / 5) 1 :=
  ⟨(fused_rectangle_spans_inner_columns 0 4 (by omega)).1,
    ((fused_rectangle_spans_inner_columns 0 4 (by omega)).2 1).mpr (by omega)⟩
